import Mathlib

/-!
Verification of the keypad-decoder core of the lotto repository.

The definitions below are a shallow embedding of src/charge.py.  The
decoder (parse_keypad, lines 18-152) captures the randomized on-screen
keypad, crops each button, recognizes the digit with OCR under a fallback
ladder, and assembles a digit-to-element map; the PIN-entry loop of
charge_deposit (lines 201-215) consumes that map.

Modelling conventions:
- Bounding-box coordinates (Playwright floats) are modelled as rationals.
- A button element reference is modelled by its index in the located list
  (buttons.nth(i) yields a distinct locator object per index).
- PIL images are modelled symbolically: each preprocessing transform is a
  constructor, so two images are equal exactly when they were produced by
  the same pipeline from the same crop.
- pytesseract is an oracle function from (image, config string) to a raw
  string, plus an availability flag; when the engine is unavailable every
  pytesseract call raises (TesseractNotFoundError), modelled as an error.
- Python's list.sort is stable; any two stable sorts agree pointwise, so
  it is modelled by Mathlib's stable List.insertionSort.
-/

namespace Lotto

/-- A bounding box as returned by Playwright's bounding_box():
x, y, width, height in page pixels (floats, modelled as rationals). -/
structure Box where
  x : ℚ
  y : ℚ
  w : ℚ
  h : ℚ
deriving Repr, DecidableEq

/-- One entry of button_positions (charge.py lines 85-91): the element
reference (modelled by the located index) plus the unpacked box fields. -/
structure BtnInfo where
  element : Nat
  x : ℚ
  y : ℚ
  w : ℚ
  h : ℚ
deriving Repr, DecidableEq

/-- Symbolic PIL image: the single keypad screenshot, crops of it, and the
preprocessing transforms used in charge.py lines 115-142
(convert to grayscale, ImageEnhance.Contrast(...).enhance(factor),
point thresholding at luminance 128, ImageFilter.SHARPEN). -/
inductive PImage where
  | shot : PImage
  | crop : PImage → ℚ → ℚ → ℚ → ℚ → PImage
  | gray : PImage → PImage
  | contrast : ℚ → PImage → PImage
  | point128 : PImage → PImage
  | sharpen : PImage → PImage
deriving Repr, DecidableEq

/-- The exceptions parse_keypad can raise:
- tesseractNotAccessible: the explicit raise at line 68;
- waitFailed: the re-raised wait_for_selector exception at line 69;
- noButtons: "No keypad buttons found" at line 76;
- invalidKeypadBox: "Keypad container has invalid size" at line 99;
- tesseractNotFound: TesseractNotFoundError propagating out of a
  pytesseract call made while the engine is unavailable. -/
inductive KeypadError where
  | tesseractNotAccessible : KeypadError
  | waitFailed : KeypadError
  | noButtons : KeypadError
  | invalidKeypadBox : KeypadError
  | tesseractNotFound : KeypadError
deriving Repr, DecidableEq

/-- Errors that mean the OCR capability itself is unavailable. -/
def KeypadError.isOcrUnavailable : KeypadError → Bool
  | .tesseractNotAccessible => true
  | .tesseractNotFound => true
  | _ => false

/-- The external world consumed by parse_keypad: whether the keypad
selector became visible, whether the tesseract engine is invocable,
the bounding boxes of the located img.kpd-data elements (in page
enumeration order; bounding_box() may return None), the keypad
container's bounding box, and the OCR oracle. -/
structure Env where
  waitOk : Bool
  tesseractOk : Bool
  boxes : List (Option Box)
  keypadBox : Option Box
  ocr : PImage → String → String

/-- Python str.strip() with no arguments: drop leading and trailing
whitespace characters.  Modelled on the character list; the whitespace
set is Lean's Char.isWhitespace (space, tab, CR, LF), which covers every
whitespace character tesseract emits. -/
def pyStrip (s : String) : String :=
  ⟨((s.data.dropWhile Char.isWhitespace).reverse.dropWhile Char.isWhitespace).reverse⟩

/-- Python's str.isdigit character test.  It is Unicode-aware: it accepts
every character with Unicode property Numeric_Type=Decimal or
Numeric_Type=Digit, not only ASCII 0-9.  Modelled here for the code
points exercised in this development: the ASCII digits, the Latin-1
superscript digits (U+00B9, U+00B2, U+00B3), and the Arabic-Indic
decimal digits (U+0660..U+0669); Python accepts further Unicode digit
code points that never occur below. -/
def pyIsDigitChar (c : Char) : Bool :=
  c.isDigit || c = '¹' || c = '²' || c = '³' ||
    (0x660 ≤ c.toNat && c.toNat ≤ 0x669)

/-- Python str.isdigit(): nonempty and every character is a digit
character (in Python's Unicode sense). -/
def pyIsDigit (s : String) : Bool :=
  !s.data.isEmpty && s.data.all pyIsDigitChar

/-- The acceptance test applied to an already-stripped OCR result
(charge.py lines 135 and 145): result.isdigit() and len(result) == 1. -/
def acceptResult (result : String) : Bool :=
  pyIsDigit result && (result.length == 1)

/-- Acceptance of a raw OCR string: strip, then test. -/
def acceptOcr (raw : String) : Bool :=
  acceptResult (pyStrip raw)

/-- The three tesseract configurations tried per candidate image
(charge.py lines 127-131), in order: single character (psm 10),
single line (psm 7), single word (psm 8). -/
def configs : List String :=
  ["--oem 3 --psm 10 -c tessedit_char_whitelist=0123456789",
   "--oem 3 --psm 7 -c tessedit_char_whitelist=0123456789",
   "--oem 3 --psm 8 -c tessedit_char_whitelist=0123456789"]

/-- The inner config loop (charge.py lines 133-137 and 143-147): run OCR
on one candidate image under each configuration in order, strip the
result, and stop at the first accepted single digit. -/
def tryConfigs (ocr : PImage → String → String) (img : PImage) :
    List String → Option String
  | [] => none
  | cfg :: rest =>
    let result := pyStrip (ocr img cfg)
    if acceptResult result then some result else tryConfigs ocr img rest

/-- Per-button recognition (charge.py lines 117-147): build
gray = crop.convert('L'), enhanced = Contrast(gray).enhance(2.0),
binary = enhanced.point(p > 128 and 255); OCR the binary image under all
configs; only if that fails, build binary_sharp from the SHARPEN filter
of the enhanced image and OCR it under all configs. -/
def recognizeButton (ocr : PImage → String → String) (img : PImage) :
    Option String :=
  let gray := PImage.gray img
  let enhanced := PImage.contrast 2 gray
  let binary := PImage.point128 enhanced
  match tryConfigs ocr binary configs with
  | some t => some t
  | none =>
    let sharp := PImage.sharpen enhanced
    let binarySharp := PImage.point128 sharp
    tryConfigs ocr binarySharp configs

/-- The two images the code actually hands to OCR for one button, in
order: the binary threshold of the contrast-enhanced grayscale crop, and
the binary threshold of its sharpened variant. -/
def codeCandidates (img : PImage) : List PImage :=
  [PImage.point128 (PImage.contrast 2 (PImage.gray img)),
   PImage.point128 (PImage.sharpen (PImage.contrast 2 (PImage.gray img)))]

/-- Modelled from the spec: sections 4.3/4.4 (and claim C2) describe
recognition as running OCR over the ordered candidate-image ladder
grayscale, contrast-enhanced, binary threshold, then a sharpened variant
and its thresholded form, stopping at the first configuration yielding
exactly one digit.  This is the claim-side recognizer, to be compared
with recognizeButton, the code-side one. -/
def recognizeButtonClaim (ocr : PImage → String → String) (img : PImage) :
    Option String :=
  let gray := PImage.gray img
  let enhanced := PImage.contrast 2 gray
  let binary := PImage.point128 enhanced
  let sharp := PImage.sharpen enhanced
  let binarySharp := PImage.point128 sharp
  [gray, enhanced, binary, sharp, binarySharp].findSome? fun cand =>
    tryConfigs ocr cand configs

/-- Modelled from the spec: the RecognitionResult acceptance test as the
spec words it ("exactly one character, and that character is an ASCII
digit 0-9", after trimming). -/
def asciiAccept (raw : String) : Bool :=
  ((pyStrip raw).length == 1) && (pyStrip raw).data.all Char.isDigit

/-- The digit map: Python dict from digit string to element reference,
modelled as an insertion-ordered association list with unique keys. -/
abbrev DMap := List (String × Nat)

/-- Python dict lookup / membership test on the association list. -/
def dlookup (k : String) : DMap → Option Nat
  | [] => none
  | (k2, e) :: rest => if k2 = k then some e else dlookup k rest

/-- One step of the map builder (charge.py lines 149-150):
if text and text not in number_map: number_map[text] = element. -/
def updateMap (m : DMap) (t? : Option String) (e : Nat) : DMap :=
  match t? with
  | some t => if t ≠ "" ∧ dlookup t m = none then m ++ [(t, e)] else m
  | none => m

/-- The digit-map builder folded over the per-button recognition
outcomes, in candidate order. -/
def buildMap : List (Option String × Nat) → DMap → DMap
  | [], m => m
  | p :: rest, m => buildMap rest (updateMap m p.1 p.2)

/-- Collection of button_positions (charge.py lines 79-91): walk the
located elements by index, keep those whose bounding_box() is non-None
with width > 0 and height > 0, recording the element index and box. -/
def collectPositionsFrom : Nat → List (Option Box) → List BtnInfo
  | _, [] => []
  | i, none :: rest => collectPositionsFrom (i + 1) rest
  | i, some b :: rest =>
    (if 0 < b.w ∧ 0 < b.h then [⟨i, b.x, b.y, b.w, b.h⟩] else []) ++
      collectPositionsFrom (i + 1) rest

/-- The valid button candidates, in page enumeration order. -/
def collectPositions (boxes : List (Option Box)) : List BtnInfo :=
  collectPositionsFrom 0 boxes

/-- The sort key comparison of charge.py line 107:
key=lambda b: (b['y'], b['x']), i.e. lexicographic (y, x) ascending. -/
def lexLe (a b : BtnInfo) : Bool :=
  decide (a.y < b.y) || (decide (a.y = b.y) && decide (a.x ≤ b.x))

/-- button_positions.sort(key=lambda b: (b['y'], b['x'])): Python's sort
is stable, so it is modelled by the stable insertion sort. -/
def sortButtons (l : List BtnInfo) : List BtnInfo :=
  l.insertionSort fun a b => lexLe a b = true

/-- The candidate list parse_keypad iterates over: valid buttons sorted
by (y, x). -/
def candidates (boxes : List (Option Box)) : List BtnInfo :=
  sortButtons (collectPositions boxes)

/-- The crop of the keypad screenshot for one button (charge.py lines
111-115): relative coordinates with the container origin subtracted. -/
def cropOf (kb : Box) (b : BtnInfo) : PImage :=
  PImage.crop PImage.shot (b.x - kb.x) (b.y - kb.y)
    (b.x - kb.x + b.w) (b.y - kb.y + b.h)

/-- One pytesseract.image_to_string call: returns the oracle's text when
the engine is available, raises TesseractNotFoundError otherwise. -/
def runOcr (env : Env) (img : PImage) (cfg : String) :
    Except KeypadError String :=
  if env.tesseractOk then .ok (env.ocr img cfg) else .error .tesseractNotFound

/-- The inner config loop in the exception monad (errors propagate). -/
def tryConfigsE (env : Env) (img : PImage) :
    List String → Except KeypadError (Option String)
  | [] => .ok none
  | cfg :: rest =>
    match runOcr env img cfg with
    | .error e => .error e
    | .ok raw =>
      let result := pyStrip raw
      if acceptResult result then .ok (some result)
      else tryConfigsE env img rest

/-- Per-button recognition in the exception monad. -/
def recognizeButtonE (env : Env) (img : PImage) :
    Except KeypadError (Option String) :=
  let gray := PImage.gray img
  let enhanced := PImage.contrast 2 gray
  let binary := PImage.point128 enhanced
  match tryConfigsE env binary configs with
  | .error e => .error e
  | .ok (some t) => .ok (some t)
  | .ok none =>
    let sharp := PImage.sharpen enhanced
    let binarySharp := PImage.point128 sharp
    tryConfigsE env binarySharp configs

/-- The main per-button loop of parse_keypad (charge.py lines 109-150):
crop, recognize, and record first-seen digits into the map. -/
def processButtons (env : Env) (kb : Box) :
    List BtnInfo → DMap → Except KeypadError DMap
  | [], m => .ok m
  | b :: rest, m =>
    match recognizeButtonE env (cropOf kb b) with
    | .error e => .error e
    | .ok t? => processButtons env kb rest (updateMap m t? b.element)

/-- parse_keypad (charge.py lines 18-152).  Control flow:
wait for the keypad selector; on failure check tesseract and raise the
accessibility error or re-raise; raise if zero img.kpd-data elements are
located; collect valid button positions; raise if the container box is
None or has zero width/height; sort the positions by (y, x) and fold the
recognition loop into the digit map, which is returned as built. -/
def parse_keypad (env : Env) : Except KeypadError DMap :=
  if env.waitOk = false then
    if env.tesseractOk = false then .error .tesseractNotAccessible
    else .error .waitFailed
  else if env.boxes.length = 0 then .error .noButtons
  else
    match env.keypadBox with
    | none => .error .invalidKeypadBox
    | some kb =>
      if kb.w = 0 ∨ kb.h = 0 then .error .invalidKeypadBox
      else processButtons env kb (candidates env.boxes) []

/-- The recognition outcome sequence of one run, in candidate order:
what the digit map is built from when the engine is available. -/
def decodeOutcomes (env : Env) (kb : Box) : List (Option String × Nat) :=
  (candidates env.boxes).map fun b =>
    (recognizeButton env.ocr (cropOf kb b), b.element)

/-- Observable effects of the PIN-entry loop: element clicks and the
0.3-second pacing sleeps. -/
inductive Event where
  | click : Nat → Event
  | sleep : Event
deriving Repr, DecidableEq

/-- The PIN-entry loop of charge_deposit (charge.py lines 207-215): for
each digit of the PIN (a one-character string), click its mapped element
and sleep, or return False at the first digit absent from the map; True
after the loop.  The first component is the emitted click/sleep trace. -/
def enter_pin : List String → DMap → List Event × Bool
  | [], _ => ([], true)
  | d :: rest, m =>
    match dlookup d m with
    | some e =>
      let r := enter_pin rest m
      (Event.click e :: Event.sleep :: r.1, r.2)
    | none => ([], false)

/-- The click/sleep trace that entering a digit sequence produces when
every digit is looked up in the map (digits absent from the map
contribute nothing). -/
def clickTrace (m : DMap) : List String → List Event
  | [] => []
  | d :: rest =>
    match dlookup d m with
    | some e => Event.click e :: Event.sleep :: clickTrace m rest
    | none => clickTrace m rest

/-- Number of clicks in a trace. -/
def clickCount : List Event → Nat
  | [] => 0
  | Event.click _ :: rest => clickCount rest + 1
  | Event.sleep :: rest => clickCount rest

/-- First digit of the PIN missing from the map, with its 0-based
position, if any. -/
def firstMissingFrom (m : DMap) : Nat → List String → Option (Nat × String)
  | _, [] => none
  | i, d :: rest =>
    if dlookup d m = none then some (i, d) else firstMissingFrom m (i + 1) rest

/-- First missing digit of the PIN and its position. -/
def firstMissing (m : DMap) (pin : List String) : Option (Nat × String) :=
  firstMissingFrom m 0 pin

/-- The caller-side completeness gate and PIN entry (charge.py lines
203-215): reject maps with fewer than 9 digits, else enter the PIN. -/
def charge_pin_stage (m : DMap) (pin : List String) : List Event × Bool :=
  if m.length < 9 then ([], false) else enter_pin pin m

/-- Does the keypad container box pass the line 98 validity check. -/
def keypadBoxValid : Option Box → Bool
  | none => false
  | some kb => !(decide (kb.w = 0) || decide (kb.h = 0))

/-- A string key is a single ASCII digit (the form every recognized text
has when the OCR engine honors the configured whitelist 0123456789). -/
def digitKey (t : String) : Bool :=
  (t.length == 1) && t.data.all Char.isDigit

/-- The ten possible ASCII digit keys. -/
def digitStrings : List String :=
  ["0", "1", "2", "3", "4", "5", "6", "7", "8", "9"]

/-- Concrete crop used by the recognition-ladder counterexample. -/
def imgC2 : PImage := PImage.crop PImage.shot 0 0 10 10

/-- An OCR oracle that reads the digit 5 on any raw grayscale image but
nothing on any other candidate (in particular nothing on thresholded
images). -/
def ocrGrayOnly : PImage → String → String := fun img _ =>
  match img with
  | PImage.gray _ => "5"
  | _ => ""

/-! ### Lemmas about the PIN-entry loop -/

theorem firstMissingFrom_le (m : DMap) :
    ∀ (pin : List String) (n i : Nat) (d : String),
      firstMissingFrom m n pin = some (i, d) → n ≤ i := by
  intro pin
  induction pin with
  | nil => intro n i d h; simp [firstMissingFrom] at h
  | cons p rest ih =>
    intro n i d h
    by_cases hp : dlookup p m = none
    · simp only [firstMissingFrom, if_pos hp, Option.some.injEq,
        Prod.mk.injEq] at h
      omega
    · simp only [firstMissingFrom, if_neg hp] at h
      have := ih (n + 1) i d h
      omega

theorem enter_pin_missing_aux (m : DMap) :
    ∀ (pin : List String) (n i : Nat) (d : String),
      firstMissingFrom m n pin = some (i, d) →
      dlookup d m = none ∧
        enter_pin pin m = (clickTrace m (pin.take (i - n)), false) := by
  intro pin
  induction pin with
  | nil => intro n i d h; simp [firstMissingFrom] at h
  | cons p rest ih =>
    intro n i d h
    by_cases hp : dlookup p m = none
    · simp only [firstMissingFrom, if_pos hp, Option.some.injEq,
        Prod.mk.injEq] at h
      obtain ⟨hi, hd⟩ := h
      subst hi; subst hd
      refine ⟨hp, ?_⟩
      simp [enter_pin, hp, clickTrace]
    · simp only [firstMissingFrom, if_neg hp] at h
      obtain ⟨e, he⟩ : ∃ e, dlookup p m = some e := by
        cases hq : dlookup p m
        · exact absurd hq hp
        · exact ⟨_, rfl⟩
      obtain ⟨hdm, hrec⟩ := ih (n + 1) i d h
      have hni : n + 1 ≤ i := firstMissingFrom_le m rest (n + 1) i d h
      refine ⟨hdm, ?_⟩
      have htake : i - n = (i - (n + 1)) + 1 := by omega
      rw [htake]
      simp [enter_pin, he, clickTrace, hrec]

/-- C4 (amended): for every PIN and digit map, if the first digit of the
PIN absent from the map is d at 0-based position i, entry clicks exactly
the digits before position i (each with its pacing sleep) and then stops,
returning the bare failure value False; the return value itself carries
no indication of which digit was missing or of the position reached. -/
theorem enter_pin_stops_at_first_missing (pin : List String) (m : DMap)
    (i : Nat) (d : String) (h : firstMissing m pin = some (i, d)) :
    dlookup d m = none ∧
      enter_pin pin m = (clickTrace m (pin.take i), false) := by
  have := enter_pin_missing_aux m pin 0 i d h
  simpa using this

theorem enter_pin_stops_at_first_missing_witness :
    dlookup "3" [("1", 10), ("2", 11), ("4", 13)] = none ∧
      enter_pin ["1", "2", "3", "4"] [("1", 10), ("2", 11), ("4", 13)] =
        (clickTrace [("1", 10), ("2", 11), ("4", 13)]
          (["1", "2", "3", "4"].take 2), false) :=
  enter_pin_stops_at_first_missing ["1", "2", "3", "4"]
    [("1", 10), ("2", 11), ("4", 13)] 2 "3" (by decide)

/-- C4 counterexample: the claim says the failure report identifies the
missing digit, but two runs whose first missing digits differ ("2"
versus "3") produce completely identical observable outcomes (same
clicks, same sleeps, same returned value False), so the report cannot
identify the missing digit. -/
theorem enter_pin_report_counterexample :
    enter_pin ["1", "2"] [("1", 7)] = enter_pin ["1", "3"] [("1", 7)] ∧
      firstMissing [("1", 7)] ["1", "2"] = some (1, "2") ∧
      firstMissing [("1", 7)] ["1", "3"] = some (1, "3") := by
  refine ⟨?_, ?_, ?_⟩ <;> rfl

/-- C5: for every PIN all of whose digits are in the digit map, entry
emits exactly the trace that clicks each digit's mapped element in PIN
order, with a pacing sleep after each click, reports success (True), and
the trace has exactly one click per PIN digit. -/
theorem enter_pin_success (pin : List String) (m : DMap)
    (h : ∀ d ∈ pin, dlookup d m ≠ none) :
    enter_pin pin m = (clickTrace m pin, true) ∧
      clickCount (clickTrace m pin) = pin.length := by
  induction pin with
  | nil => simp [enter_pin, clickTrace, clickCount]
  | cons p rest ih =>
    have hp : dlookup p m ≠ none := h p (by simp)
    obtain ⟨e, he⟩ : ∃ e, dlookup p m = some e := by
      cases hq : dlookup p m
      · exact absurd hq hp
      · exact ⟨_, rfl⟩
    obtain ⟨ih1, ih2⟩ := ih fun d hd => h d (by simp [hd])
    constructor
    · simp [enter_pin, he, clickTrace, ih1]
    · simp [clickTrace, he, clickCount, ih2]

theorem enter_pin_success_witness :
    enter_pin ["1", "2", "3", "4"]
        [("1", 10), ("2", 11), ("3", 12), ("4", 13)] =
      (clickTrace [("1", 10), ("2", 11), ("3", 12), ("4", 13)]
        ["1", "2", "3", "4"], true) ∧
      clickCount (clickTrace [("1", 10), ("2", 11), ("3", 12), ("4", 13)]
        ["1", "2", "3", "4"]) = 4 :=
  enter_pin_success ["1", "2", "3", "4"]
    [("1", 10), ("2", 11), ("3", 12), ("4", 13)] (by decide)

/-! ### The acceptance predicate (claim C6) -/

/-- C6 (amended): a raw OCR string is accepted exactly when, after
stripping whitespace, it is one character long and that character passes
Python's Unicode-aware str.isdigit test; this is a strict superset of
the ASCII digits 0-9 (see the counterexample below). -/
theorem acceptOcr_iff (raw : String) :
    acceptOcr raw = true ↔
      ((pyStrip raw).length = 1 ∧
        (pyStrip raw).data.all pyIsDigitChar = true) := by
  rcases hs : pyStrip raw with ⟨l⟩
  cases l with
  | nil =>
    simp [acceptOcr, acceptResult, pyIsDigit, String.length, hs]
  | cons c cs =>
    simp only [acceptOcr, acceptResult, pyIsDigit, hs, String.length,
      List.isEmpty_cons, Bool.not_false, Bool.true_and, Bool.and_eq_true,
      beq_iff_eq]
    constructor
    · rintro ⟨h1, h2⟩; exact ⟨h2, h1⟩
    · rintro ⟨h1, h2⟩; exact ⟨h2, h1⟩

/-- C6 counterexample: the superscript-two character U+00B2 is a single
character accepted by Python's str.isdigit, so the code accepts the OCR
result "²" as a recognized digit even though it is not an ASCII digit
0-9 (asciiAccept is the spec-side predicate, recognizeButton the
code-side recognizer). -/
theorem accept_unicode_counterexample :
    acceptOcr "²" = true ∧ asciiAccept "²" = false ∧
      recognizeButton (fun _ _ => "²") PImage.shot = some "²" := by
  exact ⟨rfl, rfl, rfl⟩

/-! ### The recognition ladder (claim C2) -/

/-- C2 (amended): per-button recognition hands OCR exactly two candidate
images, in order: the binary threshold of the contrast-enhanced (2.0)
grayscale crop and, only if all three configurations fail on it, the
binary threshold of the sharpened enhanced image; within each candidate
the three configurations run in order, stopping at the first accepted
single digit.  The grayscale, enhanced and sharpened images themselves
are intermediate transforms never given to OCR. -/
theorem recognizeButton_two_candidates (ocr : PImage → String → String)
    (img : PImage) :
    recognizeButton ocr img =
      (codeCandidates img).findSome? (fun cand => tryConfigs ocr cand configs) ∧
      (recognizeButton ocr img = none ↔
        ∀ cand ∈ codeCandidates img, tryConfigs ocr cand configs = none) := by
  unfold recognizeButton codeCandidates
  cases h1 : tryConfigs ocr
      (PImage.point128 (PImage.contrast 2 (PImage.gray img))) configs with
  | some t => simp [List.findSome?_cons, h1]
  | none =>
    cases h2 : tryConfigs ocr
        (PImage.point128 (PImage.sharpen (PImage.contrast 2 (PImage.gray img))))
        configs with
    | some t => simp [List.findSome?_cons, h1, h2]
    | none => simp [List.findSome?_cons, h1, h2]

/-- C2 counterexample: an OCR oracle that reads a digit on the raw
grayscale candidate (and on nothing else) refutes the claimed ladder:
the spec-side recognizer (which tries the grayscale image first) finds
the digit 5, but the code finds nothing, because the code never runs OCR
on the grayscale or contrast-enhanced images. -/
theorem recognize_ladder_counterexample :
    recognizeButton ocrGrayOnly imgC2 = none ∧
      recognizeButtonClaim ocrGrayOnly imgC2 = some "5" := by
  exact ⟨rfl, rfl⟩

/-! ### ASCII digit keys -/

theorem uint32_eq_of_toNat_eq {a b : UInt32} (h : a.toNat = b.toNat) :
    a = b := by
  cases a; cases b
  congr 1
  exact BitVec.eq_of_toNat_eq h

theorem char_eq_of_toNat_eq {c d : Char} (h : c.toNat = d.toNat) : c = d :=
  Char.ext (uint32_eq_of_toNat_eq h)

theorem isDigit_enum (c : Char) (h : c.isDigit = true) :
    c ∈ ['0', '1', '2', '3', '4', '5', '6', '7', '8', '9'] := by
  have hb : 48 ≤ c.toNat ∧ c.toNat ≤ 57 := by
    simpa [Char.isDigit] using h
  have henum : c.toNat = 48 ∨ c.toNat = 49 ∨ c.toNat = 50 ∨ c.toNat = 51 ∨
      c.toNat = 52 ∨ c.toNat = 53 ∨ c.toNat = 54 ∨ c.toNat = 55 ∨
      c.toNat = 56 ∨ c.toNat = 57 := by omega
  rcases henum with h1 | h1 | h1 | h1 | h1 | h1 | h1 | h1 | h1 | h1
  · have hc : c = '0' := char_eq_of_toNat_eq (by rw [h1]; rfl)
    simp [hc]
  · have hc : c = '1' := char_eq_of_toNat_eq (by rw [h1]; rfl)
    simp [hc]
  · have hc : c = '2' := char_eq_of_toNat_eq (by rw [h1]; rfl)
    simp [hc]
  · have hc : c = '3' := char_eq_of_toNat_eq (by rw [h1]; rfl)
    simp [hc]
  · have hc : c = '4' := char_eq_of_toNat_eq (by rw [h1]; rfl)
    simp [hc]
  · have hc : c = '5' := char_eq_of_toNat_eq (by rw [h1]; rfl)
    simp [hc]
  · have hc : c = '6' := char_eq_of_toNat_eq (by rw [h1]; rfl)
    simp [hc]
  · have hc : c = '7' := char_eq_of_toNat_eq (by rw [h1]; rfl)
    simp [hc]
  · have hc : c = '8' := char_eq_of_toNat_eq (by rw [h1]; rfl)
    simp [hc]
  · have hc : c = '9' := char_eq_of_toNat_eq (by rw [h1]; rfl)
    simp [hc]

theorem digitKey_mem (t : String) (h : digitKey t = true) :
    t ∈ digitStrings := by
  simp only [digitKey, Bool.and_eq_true, beq_iff_eq] at h
  have h1d : t.data.length = 1 := h.1
  obtain ⟨c, hc⟩ : ∃ a, t.data = [a] := List.length_eq_one.mp h1d
  have hcd : c.isDigit = true := by
    have h2 := h.2
    rw [hc] at h2
    simpa using h2
  have ht : t = ⟨[c]⟩ := by cases t; exact congrArg String.mk hc
  subst ht
  have hmem := isDigit_enum c hcd
  fin_cases hmem <;> decide

/-! ### Lookup lemmas for the dict model -/

theorem dlookup_append_some {d : String} {m : DMap} {e : Nat}
    (h : dlookup d m = some e) (l2 : DMap) :
    dlookup d (m ++ l2) = some e := by
  induction m with
  | nil => simp [dlookup] at h
  | cons q rest ih =>
    obtain ⟨k, v⟩ := q
    by_cases hk : k = d
    · simp only [dlookup, if_pos hk] at h ⊢
      exact h
    · simp only [dlookup, if_neg hk] at h ⊢
      exact ih h

theorem dlookup_append_none {d : String} {m : DMap}
    (h : dlookup d m = none) (l2 : DMap) :
    dlookup d (m ++ l2) = dlookup d l2 := by
  induction m with
  | nil => rfl
  | cons q rest ih =>
    obtain ⟨k, v⟩ := q
    by_cases hk : k = d
    · simp only [dlookup, if_pos hk] at h
      exact absurd h (by simp)
    · simp only [dlookup, if_neg hk] at h ⊢
      exact ih h

theorem dlookup_append_single_ne {d t : String} (hne : t ≠ d) (m : DMap)
    (e : Nat) : dlookup d (m ++ [(t, e)]) = dlookup d m := by
  cases h : dlookup d m with
  | some v => exact dlookup_append_some h _
  | none =>
    rw [dlookup_append_none h]
    simp [dlookup, hne]

theorem dlookup_mem {d : String} {m : DMap} {e : Nat}
    (h : dlookup d m = some e) : (d, e) ∈ m := by
  induction m with
  | nil => simp [dlookup] at h
  | cons q rest ih =>
    obtain ⟨k, v⟩ := q
    by_cases hk : k = d
    · simp only [dlookup, if_pos hk] at h
      obtain rfl := Option.some.inj h
      subst hk
      exact List.mem_cons_self _ _
    · simp only [dlookup, if_neg hk] at h
      exact List.mem_cons_of_mem _ (ih h)

theorem dlookup_none_not_key {t : String} {m : DMap}
    (h : dlookup t m = none) : t ∉ m.map Prod.fst := by
  induction m with
  | nil => simp
  | cons q rest ih =>
    obtain ⟨k, v⟩ := q
    by_cases hk : k = t
    · simp [dlookup, hk] at h
    · simp only [dlookup, if_neg hk] at h
      simp only [List.map_cons, List.mem_cons]
      rintro (h2 | h2)
      · exact hk h2.symm
      · exact ih h h2

/-! ### The digit-map builder -/

theorem updateMap_none (m : DMap) (e : Nat) : updateMap m none e = m := rfl

theorem updateMap_some (m : DMap) (t : String) (e : Nat) :
    updateMap m (some t) e =
      if t ≠ "" ∧ dlookup t m = none then m ++ [(t, e)] else m := rfl

theorem buildMap_preserves :
    ∀ (os : List (Option String × Nat)) (m : DMap) (d : String) (e : Nat),
      dlookup d m = some e → dlookup d (buildMap os m) = some e := by
  intro os
  induction os with
  | nil => intro m d e h; exact h
  | cons p rest ih =>
    intro m d e h
    obtain ⟨tOpt, pe⟩ := p
    rw [buildMap]
    apply ih
    cases tOpt with
    | none => exact h
    | some t =>
      rw [updateMap_some]
      split
      · exact dlookup_append_some h _
      · exact h

theorem buildMap_fresh :
    ∀ (os : List (Option String × Nat)) (m : DMap) (d : String),
      (∀ p ∈ os, p.1 ≠ some "") →
      dlookup d m = none →
      dlookup d (buildMap os m) =
        (os.find? fun p => p.1 == some d).map Prod.snd := by
  intro os
  induction os with
  | nil => intro m d hne h; simpa [buildMap] using h
  | cons p rest ih =>
    intro m d hne h
    obtain ⟨tOpt, e⟩ := p
    cases tOpt with
    | none =>
      rw [buildMap, updateMap_none]
      rw [ih m d (fun q hq => hne q (List.mem_cons_of_mem _ hq)) h]
      simp [List.find?]
    | some t =>
      have ht : t ≠ "" := by
        intro hteq
        exact hne (some t, e) (List.mem_cons_self _ _) (by simp [hteq])
      by_cases htd : t = d
      · subst htd
        rw [buildMap, updateMap_some, if_pos ⟨ht, h⟩]
        have hl : dlookup t (m ++ [(t, e)]) = some e := by
          rw [dlookup_append_none h]
          simp [dlookup]
        rw [buildMap_preserves rest _ t e hl]
        simp [List.find?]
      · rw [buildMap]
        have hstep : dlookup d (updateMap m (some t) e) = none := by
          rw [updateMap_some]
          split
          · rw [dlookup_append_single_ne htd m e]
            exact h
          · exact h
        rw [ih _ d (fun q hq => hne q (List.mem_cons_of_mem _ hq)) hstep]
        have hbeq : (t == d) = false := by simp [htd]
        simp [List.find?, hbeq]

theorem buildMap_keys_prop (P : String → Prop) :
    ∀ (os : List (Option String × Nat)) (m : DMap),
      (∀ p ∈ os, ∀ t, p.1 = some t → P t) →
      (∀ k ∈ m.map Prod.fst, P k) →
      ∀ k ∈ (buildMap os m).map Prod.fst, P k := by
  intro os
  induction os with
  | nil => intro m hos hm k hk; exact hm k hk
  | cons p rest ih =>
    intro m hos hm k hk
    obtain ⟨tOpt, e⟩ := p
    rw [buildMap] at hk
    refine ih _ (fun q hq => hos q (List.mem_cons_of_mem _ hq)) ?_ k hk
    cases tOpt with
    | none => exact hm
    | some t =>
      rw [updateMap_some]
      split
      · intro k2 hk2
        simp only [List.map_append, List.map_cons, List.map_nil,
          List.mem_append, List.mem_singleton] at hk2
        rcases hk2 with hk2 | hk2
        · exact hm k2 hk2
        · rw [hk2]
          exact hos (some t, e) (List.mem_cons_self _ _) t rfl
      · exact hm

theorem buildMap_keys_nodup :
    ∀ (os : List (Option String × Nat)) (m : DMap),
      (m.map Prod.fst).Nodup → ((buildMap os m).map Prod.fst).Nodup := by
  intro os
  induction os with
  | nil => intro m h; exact h
  | cons p rest ih =>
    intro m h
    obtain ⟨tOpt, e⟩ := p
    rw [buildMap]
    apply ih
    cases tOpt with
    | none => exact h
    | some t =>
      rw [updateMap_some]
      split
      · rename_i hcond
        simp only [List.map_append, List.map_cons]
        rw [List.nodup_append]
        refine ⟨h, by simp, ?_⟩
        intro x hx
        simp only [List.map_nil, List.mem_cons, List.not_mem_nil, or_false]
        intro hxt
        subst hxt
        exact dlookup_none_not_key hcond.2 hx
      · exact h

theorem dmap_length_le_ten (m : DMap)
    (hnd : (m.map Prod.fst).Nodup)
    (hdig : ∀ k ∈ m.map Prod.fst, digitKey k = true) :
    m.length ≤ 10 := by
  have hlen : m.length = (m.map Prod.fst).length := (List.length_map _ _).symm
  rw [hlen]
  have hsub : (m.map Prod.fst).toFinset ⊆ digitStrings.toFinset := by
    intro x hx
    rw [List.mem_toFinset] at hx ⊢
    exact digitKey_mem x (hdig x hx)
  have h1 : (m.map Prod.fst).toFinset.card = (m.map Prod.fst).length :=
    List.toFinset_card_of_nodup hnd
  have h2 := Finset.card_le_card hsub
  have h3 : digitStrings.toFinset.card ≤ digitStrings.length :=
    List.toFinset_card_le _
  have h4 : digitStrings.length = 10 := rfl
  omega

theorem buildMap_absent :
    ∀ (os : List (Option String × Nat)) (m : DMap) (d : String),
      (∀ p ∈ os, p.1 ≠ some d) →
      dlookup d (buildMap os m) = dlookup d m := by
  intro os
  induction os with
  | nil => intro m d h; rfl
  | cons p rest ih =>
    intro m d hd
    obtain ⟨tOpt, e⟩ := p
    rw [buildMap]
    rw [ih _ d (fun q hq => hd q (List.mem_cons_of_mem _ hq))]
    cases tOpt with
    | none => rfl
    | some t =>
      have htd : t ≠ d := by
        intro hteq
        exact hd (some t, e) (List.mem_cons_self _ _) (by simp [hteq])
      rw [updateMap_some]
      split
      · exact dlookup_append_single_ne htd m e
      · rfl

theorem buildMap_values :
    ∀ (os : List (Option String × Nat)) (m : DMap),
      ∃ w, (buildMap os m).map Prod.snd = m.map Prod.snd ++ w ∧
        w.Sublist (os.map Prod.snd) := by
  intro os
  induction os with
  | nil => intro m; exact ⟨[], by simp [buildMap], List.nil_sublist _⟩
  | cons p rest ih =>
    intro m
    obtain ⟨tOpt, e⟩ := p
    rw [buildMap]
    cases tOpt with
    | none =>
      obtain ⟨w, hw, hs⟩ := ih m
      exact ⟨w, by simpa [updateMap_none] using hw, hs.cons e⟩
    | some t =>
      rw [updateMap_some]
      split
      · obtain ⟨w, hw, hs⟩ := ih (m ++ [(t, e)])
        refine ⟨e :: w, ?_, hs.cons₂ e⟩
        rw [hw]
        simp
      · obtain ⟨w, hw, hs⟩ := ih m
        exact ⟨w, hw, hs.cons e⟩

theorem dmap_values_inj (m : DMap) (hnd : (m.map Prod.snd).Nodup) :
    ∀ k1 k2 e, (k1, e) ∈ m → (k2, e) ∈ m → k1 = k2 := by
  induction m with
  | nil => intro k1 k2 e h1 h2; simp at h1
  | cons q rest ih =>
    intro k1 k2 e h1 h2
    simp only [List.map_cons, List.nodup_cons] at hnd
    obtain ⟨hq, hrest⟩ := hnd
    rcases List.mem_cons.mp h1 with h1 | h1 <;>
      rcases List.mem_cons.mp h2 with h2 | h2
    · have h3 : (k1, e) = (k2, e) := h1.trans h2.symm
      simpa using h3
    · exfalso
      apply hq
      have : q.2 = e := by rw [← h1]
      rw [this]
      exact List.mem_map_of_mem Prod.snd h2
    · exfalso
      apply hq
      have : q.2 = e := by rw [← h2]
      rw [this]
      exact List.mem_map_of_mem Prod.snd h1
    · exact ih hrest k1 k2 e h1 h2

/-! ### Monadic loop versus pure recognition -/

theorem tryConfigsE_ok (env : Env) (ht : env.tesseractOk = true)
    (img : PImage) :
    ∀ cfgs, tryConfigsE env img cfgs = .ok (tryConfigs env.ocr img cfgs) := by
  intro cfgs
  induction cfgs with
  | nil => rfl
  | cons cfg rest ih =>
    by_cases ha : acceptResult (pyStrip (env.ocr img cfg)) = true
    · simp [tryConfigsE, tryConfigs, runOcr, ht, ha]
    · simp [tryConfigsE, tryConfigs, runOcr, ht, ha, ih]

theorem recognizeButtonE_ok (env : Env) (ht : env.tesseractOk = true)
    (img : PImage) :
    recognizeButtonE env img = .ok (recognizeButton env.ocr img) := by
  simp only [recognizeButtonE, recognizeButton]
  rw [tryConfigsE_ok env ht]
  cases h1 : tryConfigs env.ocr
      (PImage.point128 (PImage.contrast 2 (PImage.gray img))) configs with
  | some t => rfl
  | none => exact tryConfigsE_ok env ht _ configs

theorem processButtons_ok (env : Env) (ht : env.tesseractOk = true) (kb : Box) :
    ∀ (bs : List BtnInfo) (m : DMap),
      processButtons env kb bs m =
        .ok (buildMap
          (bs.map fun b => (recognizeButton env.ocr (cropOf kb b), b.element)) m) := by
  intro bs
  induction bs with
  | nil => intro m; rfl
  | cons b rest ih =>
    intro m
    rw [processButtons, recognizeButtonE_ok env ht]
    simp only [List.map_cons, buildMap]
    exact ih _

theorem parse_keypad_ok_eq (env : Env) (kb : Box)
    (hw : env.waitOk = true) (ht : env.tesseractOk = true)
    (hb : env.boxes ≠ []) (hk : env.keypadBox = some kb)
    (hv : ¬(kb.w = 0 ∨ kb.h = 0)) :
    parse_keypad env = .ok (buildMap (decodeOutcomes env kb) []) := by
  have hlen : ¬(env.boxes.length = 0) := by
    simpa [List.length_eq_zero] using hb
  unfold parse_keypad
  simp only [hw, hk, hlen]
  rw [if_neg (fun hf => hf), if_neg hv, processButtons_ok env ht]
  rfl

/-! ### Recognized text honors the whitelist -/

theorem tryConfigs_digits (ocr : PImage → String → String) (img : PImage)
    (hwl : ∀ i cfg, (pyStrip (ocr i cfg)).data.all Char.isDigit = true) :
    ∀ (cfgs : List String) (t : String),
      tryConfigs ocr img cfgs = some t → digitKey t = true := by
  intro cfgs
  induction cfgs with
  | nil => intro t h; simp [tryConfigs] at h
  | cons cfg rest ih =>
    intro t h
    by_cases ha : acceptResult (pyStrip (ocr img cfg)) = true
    · simp only [tryConfigs, if_pos ha, Option.some.injEq] at h
      subst h
      simp only [acceptResult, Bool.and_eq_true] at ha
      simp [digitKey, ha.2, hwl img cfg]
    · simp only [tryConfigs, if_neg ha] at h
      exact ih t h

theorem recognizeButton_digitKey (ocr : PImage → String → String)
    (hwl : ∀ i cfg, (pyStrip (ocr i cfg)).data.all Char.isDigit = true)
    (img : PImage) (t : String)
    (h : recognizeButton ocr img = some t) : digitKey t = true := by
  simp only [recognizeButton] at h
  cases h1 : tryConfigs ocr
      (PImage.point128 (PImage.contrast 2 (PImage.gray img))) configs with
  | some t2 =>
    simp only [h1] at h
    obtain rfl := Option.some.inj h
    exact tryConfigs_digits ocr _ hwl configs _ h1
  | none =>
    simp only [h1] at h
    exact tryConfigs_digits ocr _ hwl configs t h

/-! ### Claims C1 and C9 -/

/-- C1: under the whitelist guarantee (every stripped OCR result is made
of ASCII digits, as the tessedit whitelist enforces), the map built by
parse_keypad maps each digit key to the element of the first button in
(y, x) sort order recognized as that digit (a later duplicate is
discarded), never has more than 10 entries, and never reassigns a digit
key already present to a different element. -/
theorem parse_keypad_first_wins (env : Env) (kb : Box)
    (hw : env.waitOk = true) (ht : env.tesseractOk = true)
    (hb : env.boxes ≠ []) (hk : env.keypadBox = some kb)
    (hv : ¬(kb.w = 0 ∨ kb.h = 0))
    (hwl : ∀ img cfg, (pyStrip (env.ocr img cfg)).data.all Char.isDigit = true) :
    parse_keypad env = .ok (buildMap (decodeOutcomes env kb) []) ∧
      (buildMap (decodeOutcomes env kb) []).length ≤ 10 ∧
      (∀ d, dlookup d (buildMap (decodeOutcomes env kb) []) =
        ((decodeOutcomes env kb).find? fun p => p.1 == some d).map Prod.snd) ∧
      (∀ m d e, dlookup d m = some e →
        dlookup d (buildMap (decodeOutcomes env kb) m) = some e) := by
  have hdig : ∀ p ∈ decodeOutcomes env kb, ∀ t, p.1 = some t →
      digitKey t = true := by
    intro p hp t hpt
    obtain ⟨b, hbmem, rfl⟩ := List.mem_map.mp hp
    exact recognizeButton_digitKey env.ocr hwl _ t hpt
  refine ⟨parse_keypad_ok_eq env kb hw ht hb hk hv, ?_, ?_, ?_⟩
  · apply dmap_length_le_ten
    · exact buildMap_keys_nodup _ _ (by simp)
    · exact buildMap_keys_prop (fun k => digitKey k = true) _ [] hdig
        (by simp)
  · intro d
    refine buildMap_fresh _ [] d ?_ rfl
    intro p hp heq
    have := hdig p hp "" heq
    exact absurd this (by decide)
  · intro m d e h
    exact buildMap_preserves _ _ _ _ h

/-- Keypad container box of the concrete two-button environment. -/
def kb1 : Box := ⟨0, 0, 20, 20⟩

/-- An OCR oracle reading the digit 1 on any binary-threshold image of a
contrast-enhanced grayscale candidate, and nothing elsewhere. -/
def ocr1 : PImage → String → String
  | PImage.point128 (PImage.contrast _ (PImage.gray _)), _ => "1"
  | _, _ => ""

/-- A concrete one-button environment using the ocr1 oracle. -/
def env1 : Env :=
  { waitOk := true, tesseractOk := true,
    boxes := [some ⟨0, 0, 5, 5⟩],
    keypadBox := some kb1,
    ocr := ocr1 }

theorem env1_whitelist :
    ∀ img cfg, (pyStrip (env1.ocr img cfg)).data.all Char.isDigit = true := by
  intro img cfg
  show (pyStrip (ocr1 img cfg)).data.all Char.isDigit = true
  unfold ocr1
  split
  · decide
  · decide

theorem parse_keypad_first_wins_witness :
    dlookup "1" (buildMap (decodeOutcomes env1 kb1) []) =
      ((decodeOutcomes env1 kb1).find? fun p => p.1 == some "1").map Prod.snd :=
  (parse_keypad_first_wins env1 kb1 rfl rfl (by decide) rfl (by decide)
    env1_whitelist).2.2.1 "1"

/-- C9: when the fatal preconditions hold (keypad visible, engine
available, at least one element located, container box valid), the
decode never aborts because of recognition failures: whatever the OCR
oracle returns, parse_keypad returns the assembled map; a digit no
button was recognized as is simply absent from it; and the completeness
check on the map size is performed by the caller (charge_pin_stage),
not by parse_keypad. -/
theorem per_button_failure_recoverable (env : Env) (kb : Box)
    (hw : env.waitOk = true) (ht : env.tesseractOk = true)
    (hb : env.boxes ≠ []) (hk : env.keypadBox = some kb)
    (hv : ¬(kb.w = 0 ∨ kb.h = 0)) :
    parse_keypad env = .ok (buildMap (decodeOutcomes env kb) []) ∧
      (∀ d, (∀ p ∈ decodeOutcomes env kb, p.1 ≠ some d) →
        dlookup d (buildMap (decodeOutcomes env kb) []) = none) ∧
      (∀ pin, (buildMap (decodeOutcomes env kb) []).length < 9 →
        charge_pin_stage (buildMap (decodeOutcomes env kb) []) pin =
          ([], false)) := by
  refine ⟨parse_keypad_ok_eq env kb hw ht hb hk hv, ?_, ?_⟩
  · intro d hd
    rw [buildMap_absent _ _ _ hd]
    rfl
  · intro pin hlt
    simp [charge_pin_stage, hlt]

/-- A concrete one-button environment whose OCR never reads anything. -/
def env9 : Env :=
  { waitOk := true, tesseractOk := true,
    boxes := [some ⟨0, 0, 5, 5⟩],
    keypadBox := some ⟨0, 0, 20, 20⟩,
    ocr := fun _ _ => "" }

theorem per_button_failure_recoverable_witness :
    dlookup "7" (buildMap (decodeOutcomes env9 ⟨0, 0, 20, 20⟩) []) = none :=
  (per_button_failure_recoverable env9 ⟨0, 0, 20, 20⟩ rfl rfl (by decide)
    rfl (by decide)).2.1 "7" (by decide)

/-! ### Error propagation through the recognition loop -/

theorem runOcr_error (env : Env) (img : PImage) (cfg : String)
    (e : KeypadError) (h : runOcr env img cfg = .error e) :
    e = KeypadError.tesseractNotFound := by
  unfold runOcr at h
  split at h
  · exact absurd h (by simp)
  · simp only [Except.error.injEq] at h
    exact h.symm

theorem tryConfigsE_error (env : Env) (img : PImage) :
    ∀ (cfgs : List String) (e : KeypadError),
      tryConfigsE env img cfgs = .error e →
        e = KeypadError.tesseractNotFound := by
  intro cfgs
  induction cfgs with
  | nil => intro e h; simp [tryConfigsE] at h
  | cons cfg rest ih =>
    intro e h
    simp only [tryConfigsE] at h
    cases hro : runOcr env img cfg with
    | error e2 =>
      simp only [hro, Except.error.injEq] at h
      subst h
      exact runOcr_error env img cfg _ hro
    | ok raw =>
      simp only [hro] at h
      split at h
      · exact absurd h (by simp)
      · exact ih e h

theorem recognizeButtonE_error (env : Env) (img : PImage) (e : KeypadError)
    (h : recognizeButtonE env img = .error e) :
    e = KeypadError.tesseractNotFound := by
  simp only [recognizeButtonE] at h
  cases h1 : tryConfigsE env
      (PImage.point128 (PImage.contrast 2 (PImage.gray img))) configs with
  | error e2 =>
    simp only [h1, Except.error.injEq] at h
    subst h
    exact tryConfigsE_error env _ configs _ h1
  | ok tOpt =>
    cases tOpt with
    | some t =>
      simp only [h1] at h
      exact absurd h (by simp)
    | none =>
      simp only [h1] at h
      exact tryConfigsE_error env _ configs e h

theorem processButtons_ne_noButtons (env : Env) (kb : Box) :
    ∀ (bs : List BtnInfo) (m : DMap),
      processButtons env kb bs m ≠ .error KeypadError.noButtons := by
  intro bs
  induction bs with
  | nil => intro m h; simp [processButtons] at h
  | cons b rest ih =>
    intro m h
    simp only [processButtons] at h
    cases h1 : recognizeButtonE env (cropOf kb b) with
    | error e2 =>
      simp only [h1, Except.error.injEq] at h
      have h2 := recognizeButtonE_error env _ e2 h1
      rw [h2] at h
      exact absurd h (by simp)
    | ok tOpt =>
      simp only [h1] at h
      exact ih _ h

theorem processButtons_unavailable (env : Env) (kb : Box)
    (ht : env.tesseractOk = false) (b : BtnInfo) (bs : List BtnInfo)
    (m : DMap) :
    processButtons env kb (b :: bs) m =
      .error KeypadError.tesseractNotFound := by
  have h2 : tryConfigsE env
      (PImage.point128 (PImage.contrast 2 (PImage.gray (cropOf kb b))))
      configs = .error .tesseractNotFound := by
    simp [configs, tryConfigsE, runOcr, ht]
  have h1 : recognizeButtonE env (cropOf kb b) =
      .error .tesseractNotFound := by
    simp only [recognizeButtonE]
    rw [h2]
  simp only [processButtons]
  rw [h1]

/-! ### Claims C7 and C8 -/

/-- A concrete environment whose only located button has a zero-width
bounding box. -/
def env7 : Env :=
  { waitOk := true, tesseractOk := true,
    boxes := [some ⟨0, 0, 0, 30⟩],
    keypadBox := some ⟨0, 0, 100, 100⟩,
    ocr := fun _ _ => "" }

/-- C7 counterexample: with one located element whose box has zero
width, zero candidates survive the degeneracy filter, yet parse_keypad
does not raise: it returns an empty map, because the zero-candidate check
(charge.py line 75) counts the raw located elements before the filter. -/
theorem zero_candidates_counterexample :
    collectPositions env7.boxes = [] ∧ parse_keypad env7 = .ok [] := by
  exact ⟨rfl, rfl⟩

/-- C7 (amended): parse_keypad raises the no-buttons error exactly when
zero img.kpd-data elements are located (and the keypad wait succeeded);
if elements are located but every bounding box is degenerate, the
empty candidate list is processed normally and an empty map is
returned. -/
theorem parse_keypad_noButtons_iff (env : Env) :
    parse_keypad env = .error KeypadError.noButtons ↔
      (env.waitOk = true ∧ env.boxes = []) := by
  unfold parse_keypad
  cases hwo : env.waitOk with
  | false =>
    rw [if_pos rfl]
    cases hto : env.tesseractOk <;> simp
  | true =>
    rw [if_neg (by simp)]
    by_cases hlen : env.boxes.length = 0
    · rw [if_pos hlen]
      simp [List.length_eq_zero.mp hlen]
    · rw [if_neg hlen]
      have hnb : ¬(env.boxes = []) := by
        intro hbe
        exact hlen (by simp [hbe])
      cases hkb : env.keypadBox with
      | none => simp [hnb]
      | some kb =>
        by_cases hdeg : kb.w = 0 ∨ kb.h = 0
        · simp [hdeg, hnb]
        · simp only [if_neg hdeg]
          simp only [hnb, and_false, iff_false]
          exact processButtons_ne_noButtons env kb _ _

/-- An environment with no located elements at all. -/
def env7b : Env :=
  { waitOk := true, tesseractOk := true, boxes := [],
    keypadBox := none, ocr := fun _ _ => "" }

theorem parse_keypad_noButtons_iff_witness :
    parse_keypad env7b = .error KeypadError.noButtons :=
  (parse_keypad_noButtons_iff env7b).mpr ⟨rfl, rfl⟩

/-- C8 (amended): when the OCR engine is unavailable, every run of the
decode that invokes the engine at all raises a fatal OCR-unavailable
error rather than absorbing the condition per button or returning a
partial map: if the keypad wait failed, the explicit accessibility check
raises; if the decode proceeds far enough to need OCR (valid container
box, at least one valid candidate), the first engine invocation raises
and propagates out of parse_keypad.  The one run that never invokes the
engine -- elements located but every bounding box degenerate -- returns
an empty map without noticing the missing engine (see the
counterexample below). -/
theorem ocr_unavailable_fatal (env : Env)
    (ht : env.tesseractOk = false)
    (hreach : env.waitOk = false ∨
      (keypadBoxValid env.keypadBox = true ∧
        collectPositions env.boxes ≠ [])) :
    ∃ e, parse_keypad env = .error e ∧ e.isOcrUnavailable = true := by
  cases hwo : env.waitOk with
  | false =>
    refine ⟨.tesseractNotAccessible, ?_, rfl⟩
    unfold parse_keypad
    simp [hwo, ht]
  | true =>
    rcases hreach with hw | ⟨hkv, hcp⟩
    · rw [hwo] at hw
      exact absurd hw (by simp)
    · obtain ⟨kb, hkb, hvv⟩ :
          ∃ kb, env.keypadBox = some kb ∧ ¬(kb.w = 0 ∨ kb.h = 0) := by
        cases hkb2 : env.keypadBox with
        | none => rw [hkb2] at hkv; simp [keypadBoxValid] at hkv
        | some kb =>
          refine ⟨kb, rfl, ?_⟩
          rw [hkb2] at hkv
          simp [keypadBoxValid] at hkv
          tauto
      have hb : env.boxes ≠ [] := by
        intro hbe
        apply hcp
        rw [hbe]
        rfl
      have hlen : ¬(env.boxes.length = 0) := by
        simpa [List.length_eq_zero] using hb
      have hcand : candidates env.boxes ≠ [] := by
        intro hce
        apply hcp
        have hperm : (candidates env.boxes).Perm (collectPositions env.boxes) :=
          List.perm_insertionSort _ _
        rw [hce] at hperm
        exact hperm.symm.eq_nil
      obtain ⟨b, bs, hbs⟩ : ∃ b bs, candidates env.boxes = b :: bs := by
        cases hcb : candidates env.boxes with
        | nil => exact absurd hcb hcand
        | cons b bs => exact ⟨b, bs, rfl⟩
      refine ⟨.tesseractNotFound, ?_, rfl⟩
      unfold parse_keypad
      simp only [hwo, hkb, hlen]
      rw [if_neg (fun hf => hf), if_neg hvv, hbs,
        processButtons_unavailable env kb ht]
      rfl

/-- A concrete environment with one valid button but no OCR engine. -/
def env8 : Env :=
  { waitOk := true, tesseractOk := false,
    boxes := [some ⟨0, 0, 5, 5⟩],
    keypadBox := some ⟨0, 0, 20, 20⟩,
    ocr := fun _ _ => "" }

theorem ocr_unavailable_fatal_witness :
    ∃ e, parse_keypad env8 = .error e ∧ e.isOcrUnavailable = true :=
  ocr_unavailable_fatal env8 rfl (Or.inr ⟨by decide, by decide⟩)

/-- A concrete environment with no OCR engine, a visible keypad, a valid
container box, and one located element whose box has zero width. -/
def env8b : Env :=
  { waitOk := true, tesseractOk := false,
    boxes := [some ⟨0, 0, 0, 30⟩],
    keypadBox := some ⟨0, 0, 100, 100⟩,
    ocr := fun _ _ => "" }

/-- C8 counterexample: with the engine unavailable, the keypad visible,
the container box valid, and the only located element's box degenerate,
the decode never invokes pytesseract, so nothing raises: parse_keypad
returns an empty map instead of the claimed fatal OCR-unavailable
error. -/
theorem ocr_unavailable_counterexample :
    env8b.tesseractOk = false ∧ parse_keypad env8b = .ok [] := by
  exact ⟨rfl, rfl⟩

/-! ### Claim C10: injectivity on element references -/

theorem processButtons_ok_values (env : Env) (kb : Box) :
    ∀ (bs : List BtnInfo) (m M : DMap),
      processButtons env kb bs m = .ok M →
      ∃ w, M.map Prod.snd = m.map Prod.snd ++ w ∧
        w.Sublist (bs.map fun b => b.element) := by
  intro bs
  induction bs with
  | nil =>
    intro m M h
    simp only [processButtons, Except.ok.injEq] at h
    subst h
    exact ⟨[], by simp, by simp⟩
  | cons b rest ih =>
    intro m M h
    simp only [processButtons] at h
    cases h1 : recognizeButtonE env (cropOf kb b) with
    | error e => simp [h1] at h
    | ok tOpt =>
      simp only [h1] at h
      obtain ⟨w, hw2, hs⟩ := ih (updateMap m tOpt b.element) M h
      cases tOpt with
      | none =>
        rw [updateMap_none] at hw2
        exact ⟨w, hw2, hs.cons _⟩
      | some t =>
        rw [updateMap_some] at hw2
        by_cases hcond : t ≠ "" ∧ dlookup t m = none
        · rw [if_pos hcond] at hw2
          refine ⟨b.element :: w, ?_, hs.cons₂ _⟩
          rw [hw2]
          simp
        · rw [if_neg hcond] at hw2
          exact ⟨w, hw2, hs.cons _⟩

theorem collectPositionsFrom_ge :
    ∀ (l : List (Option Box)) (n : Nat) (b : BtnInfo),
      b ∈ collectPositionsFrom n l → n ≤ b.element := by
  intro l
  induction l with
  | nil => intro n b h; simp [collectPositionsFrom] at h
  | cons ob rest ih =>
    intro n b h
    cases ob with
    | none =>
      simp only [collectPositionsFrom] at h
      have := ih (n + 1) b h
      omega
    | some bx =>
      simp only [collectPositionsFrom] at h
      rcases List.mem_append.mp h with h | h
      · by_cases hc : 0 < bx.w ∧ 0 < bx.h
        · rw [if_pos hc] at h
          simp only [List.mem_singleton] at h
          rw [h]
        · rw [if_neg hc] at h
          simp at h
      · have := ih (n + 1) b h
        omega

theorem collectPositionsFrom_pairwise :
    ∀ (l : List (Option Box)) (n : Nat),
      (collectPositionsFrom n l).Pairwise fun a b =>
        a.element < b.element := by
  intro l
  induction l with
  | nil => intro n; simp [collectPositionsFrom]
  | cons ob rest ih =>
    intro n
    cases ob with
    | none =>
      simp only [collectPositionsFrom]
      exact ih (n + 1)
    | some bx =>
      simp only [collectPositionsFrom]
      rw [List.pairwise_append]
      refine ⟨?_, ih (n + 1), ?_⟩
      · by_cases hc : 0 < bx.w ∧ 0 < bx.h
        · rw [if_pos hc]
          simp
        · rw [if_neg hc]
          simp
      · intro a ha b hb2
        have hble := collectPositionsFrom_ge rest (n + 1) b hb2
        by_cases hc : 0 < bx.w ∧ 0 < bx.h
        · rw [if_pos hc] at ha
          simp only [List.mem_singleton] at ha
          rw [ha]
          show n < b.element
          omega
        · rw [if_neg hc] at ha
          simp at ha

theorem candidates_elements_nodup (boxes : List (Option Box)) :
    ((candidates boxes).map fun b => b.element).Nodup := by
  have hpw := collectPositionsFrom_pairwise boxes 0
  have hperm : (candidates boxes).Perm (collectPositions boxes) :=
    List.perm_insertionSort _ _
  have hnd : ((collectPositions boxes).map fun b => b.element).Nodup := by
    have hlt : ((collectPositions boxes).map fun b => b.element).Pairwise
        (· < ·) := List.pairwise_map.mpr hpw
    exact hlt.imp Nat.ne_of_lt
  exact ((hperm.map _).nodup_iff).mpr hnd

theorem parse_keypad_ok_inv (env : Env) (M : DMap)
    (h : parse_keypad env = .ok M) :
    ∃ kb, env.keypadBox = some kb ∧
      processButtons env kb (candidates env.boxes) [] = .ok M := by
  unfold parse_keypad at h
  by_cases hwo : env.waitOk = false
  · rw [if_pos hwo] at h
    split at h <;> simp at h
  · rw [if_neg hwo] at h
    by_cases hlen : env.boxes.length = 0
    · rw [if_pos hlen] at h
      simp at h
    · rw [if_neg hlen] at h
      cases hkb : env.keypadBox with
      | none => rw [hkb] at h; simp at h
      | some kb =>
        rw [hkb] at h
        by_cases hdeg : kb.w = 0 ∨ kb.h = 0
        · simp [hdeg] at h
        · simp only [if_neg hdeg] at h
          exact ⟨kb, rfl, h⟩

/-- C10: whenever parse_keypad returns a digit map, that map is
injective on element references: every button element appears as the
value of at most one digit key, because each candidate (one per located
index) is processed once and contributes at most one entry. -/
theorem parse_keypad_injective_elements (env : Env) (M : DMap)
    (h : parse_keypad env = .ok M) :
    ∀ k1 k2 e, dlookup k1 M = some e → dlookup k2 M = some e → k1 = k2 := by
  obtain ⟨kb, hkb, hpb⟩ := parse_keypad_ok_inv env M h
  obtain ⟨w, hw2, hs⟩ := processButtons_ok_values env kb _ [] M hpb
  have hvals : (M.map Prod.snd).Nodup := by
    simp only [List.map_nil, List.nil_append] at hw2
    rw [hw2]
    exact hs.nodup (candidates_elements_nodup env.boxes)
  intro k1 k2 e h1 h2
  exact dmap_values_inj M hvals k1 k2 e (dlookup_mem h1) (dlookup_mem h2)

theorem parse_keypad_injective_elements_witness :
    parse_keypad env1 = .ok [("1", 0)] ∧ "1" = "1" :=
  ⟨by rfl,
   parse_keypad_injective_elements env1 [("1", 0)] (by rfl)
     "1" "1" 0 (by decide) (by decide)⟩

/-! ### Claim C3: the candidate list -/

theorem lexLe_total (a b : BtnInfo) : lexLe a b = true ∨ lexLe b a = true := by
  simp only [lexLe, Bool.or_eq_true, Bool.and_eq_true, decide_eq_true_eq]
  rcases lt_trichotomy a.y b.y with h | h | h
  · exact Or.inl (Or.inl h)
  · rcases le_total a.x b.x with h2 | h2
    · exact Or.inl (Or.inr ⟨h, h2⟩)
    · exact Or.inr (Or.inr ⟨h.symm, h2⟩)
  · exact Or.inr (Or.inl h)

theorem lexLe_trans (a b c : BtnInfo) (h1 : lexLe a b = true)
    (h2 : lexLe b c = true) : lexLe a c = true := by
  simp only [lexLe, Bool.or_eq_true, Bool.and_eq_true,
    decide_eq_true_eq] at h1 h2 ⊢
  rcases h1 with h1 | ⟨h1e, h1x⟩ <;> rcases h2 with h2 | ⟨h2e, h2x⟩
  · exact Or.inl (lt_trans h1 h2)
  · exact Or.inl (by rw [← h2e]; exact h1)
  · exact Or.inl (by rw [h1e]; exact h2)
  · exact Or.inr ⟨h1e.trans h2e, le_trans h1x h2x⟩

theorem lexLe_antisymm_keys (a b : BtnInfo) (h1 : lexLe a b = true)
    (h2 : lexLe b a = true) : a.y = b.y ∧ a.x = b.x := by
  simp only [lexLe, Bool.or_eq_true, Bool.and_eq_true,
    decide_eq_true_eq] at h1 h2
  rcases h1 with h1 | ⟨h1e, h1x⟩ <;> rcases h2 with h2 | ⟨h2e, h2x⟩
  · exact absurd h2 (lt_asymm h1)
  · rw [h2e] at h1
    exact absurd h1 (lt_irrefl _)
  · rw [h1e] at h2
    exact absurd h2 (lt_irrefl _)
  · exact ⟨h1e, le_antisymm h1x h2x⟩

theorem sortButtons_sorted (l : List BtnInfo) :
    List.Sorted (fun a b => lexLe a b = true) (sortButtons l) := by
  haveI hto : IsTotal BtnInfo (fun a b => lexLe a b = true) := ⟨lexLe_total⟩
  haveI htr : IsTrans BtnInfo (fun a b => lexLe a b = true) := ⟨lexLe_trans⟩
  exact List.sorted_insertionSort _ l

theorem collectPositionsFrom_mem_of :
    ∀ (l : List (Option Box)) (n i : Nat) (bx : Box),
      l[i]? = some (some bx) → 0 < bx.w → 0 < bx.h →
      (⟨n + i, bx.x, bx.y, bx.w, bx.h⟩ : BtnInfo) ∈
        collectPositionsFrom n l := by
  intro l
  induction l with
  | nil => intro n i bx h hw2 hh; simp at h
  | cons ob rest ih =>
    intro n i bx h hw2 hh
    cases i with
    | zero =>
      simp only [List.getElem?_cons_zero, Option.some.injEq] at h
      subst h
      simp only [collectPositionsFrom]
      rw [if_pos ⟨hw2, hh⟩]
      apply List.mem_append.mpr
      left
      simp
    | succ j =>
      simp only [List.getElem?_cons_succ] at h
      have hmem := ih (n + 1) j bx h hw2 hh
      have harith : n + 1 + j = n + (j + 1) := by omega
      rw [harith] at hmem
      cases ob with
      | none => simpa [collectPositionsFrom] using hmem
      | some bx2 =>
        simp only [collectPositionsFrom]
        exact List.mem_append.mpr (Or.inr hmem)

theorem collectPositionsFrom_mem :
    ∀ (l : List (Option Box)) (n : Nat) (b : BtnInfo),
      b ∈ collectPositionsFrom n l →
      ∃ i bx, l[i]? = some (some bx) ∧ b.element = n + i ∧
        b.x = bx.x ∧ b.y = bx.y ∧ b.w = bx.w ∧ b.h = bx.h ∧
        0 < bx.w ∧ 0 < bx.h := by
  intro l
  induction l with
  | nil => intro n b h; simp [collectPositionsFrom] at h
  | cons ob rest ih =>
    intro n b h
    cases ob with
    | none =>
      simp only [collectPositionsFrom] at h
      obtain ⟨i, bx, hgl, hel, hx, hy, hw2, hh2, hpw, hph⟩ := ih (n + 1) b h
      exact ⟨i + 1, bx, by simpa using hgl, by omega, hx, hy, hw2, hh2,
        hpw, hph⟩
    | some bx0 =>
      simp only [collectPositionsFrom] at h
      rcases List.mem_append.mp h with h | h
      · by_cases hc : 0 < bx0.w ∧ 0 < bx0.h
        · rw [if_pos hc] at h
          simp only [List.mem_singleton] at h
          subst h
          exact ⟨0, bx0, by simp, by simp, rfl, rfl, rfl, rfl, hc.1, hc.2⟩
        · rw [if_neg hc] at h
          simp at h
      · obtain ⟨i, bx, hgl, hel, hx, hy, hw2, hh2, hpw, hph⟩ := ih (n + 1) b h
        exact ⟨i + 1, bx, by simpa using hgl, by omega, hx, hy, hw2, hh2,
          hpw, hph⟩

theorem sorted_unique (l1 l2 : List BtnInfo) (hp : l1.Perm l2)
    (hs1 : List.Sorted (fun a b => lexLe a b = true) l1)
    (hs2 : List.Sorted (fun a b => lexLe a b = true) l2)
    (hk : l1.Pairwise fun a b => a.y ≠ b.y ∨ a.x ≠ b.x) :
    l1 = l2 := by
  have hk2 : l2.Pairwise fun a b => a.y ≠ b.y ∨ a.x ≠ b.x :=
    (List.Perm.pairwise_iff (fun hxy => hxy.imp Ne.symm Ne.symm) hp).mp hk
  have hS1 : List.Pairwise
      (fun a b : BtnInfo => lexLe a b = true ∧ (a.y ≠ b.y ∨ a.x ≠ b.x)) l1 :=
    List.Pairwise.and hs1 hk
  have hS2 : List.Pairwise
      (fun a b : BtnInfo => lexLe a b = true ∧ (a.y ≠ b.y ∨ a.x ≠ b.x)) l2 :=
    List.Pairwise.and hs2 hk2
  haveI : IsAntisymm BtnInfo
      (fun a b => lexLe a b = true ∧ (a.y ≠ b.y ∨ a.x ≠ b.x)) := by
    constructor
    intro a b hab hba
    obtain ⟨hyy, hxx⟩ := lexLe_antisymm_keys a b hab.1 hba.1
    rcases hab.2 with hne | hne
    · exact absurd hyy hne
    · exact absurd hxx hne
  exact List.eq_of_perm_of_sorted hp hS1 hS2

/-- C3: the candidate list parse_keypad iterates over is a permutation
of the valid located positions; it is sorted by (y, x) ascending; a
located element with a bounding box belongs to it exactly when both box
dimensions are positive (degenerate boxes are silently dropped, with no
error raised); every candidate carries the fields of its element's box;
and for well-separated boxes (pairwise distinct (y, x) keys) the sorted
result is the same for every enumeration order of the positions. -/
theorem candidates_spec (boxes : List (Option Box)) :
    (candidates boxes).Perm (collectPositions boxes) ∧
      List.Sorted (fun a b => lexLe a b = true) (candidates boxes) ∧
      (∀ (i : Nat) (bx : Box), boxes[i]? = some (some bx) →
        ((∃ b ∈ candidates boxes, b = ⟨i, bx.x, bx.y, bx.w, bx.h⟩) ↔
          (0 < bx.w ∧ 0 < bx.h))) ∧
      (∀ b ∈ candidates boxes, ∃ bx : Box,
        boxes[b.element]? = some (some bx) ∧
        b.x = bx.x ∧ b.y = bx.y ∧ b.w = bx.w ∧ b.h = bx.h ∧
        0 < bx.w ∧ 0 < bx.h) ∧
      (∀ l : List BtnInfo, l.Perm (collectPositions boxes) →
        ((collectPositions boxes).Pairwise fun a b =>
          a.y ≠ b.y ∨ a.x ≠ b.x) →
        sortButtons l = candidates boxes) := by
  have hperm : (candidates boxes).Perm (collectPositions boxes) :=
    List.perm_insertionSort _ _
  refine ⟨hperm, sortButtons_sorted _, ?_, ?_, ?_⟩
  · intro i bx hget
    constructor
    · rintro ⟨b, hbmem, rfl⟩
      obtain ⟨i2, bx2, hgl, hel, hx, hy, hw2, hh2, hpw, hph⟩ :=
        collectPositionsFrom_mem boxes 0 _ (hperm.subset hbmem)
      have hii : i = i2 := by simpa using hel
      subst hii
      rw [hget] at hgl
      obtain rfl : bx = bx2 := by simpa using hgl
      exact ⟨hpw, hph⟩
    · rintro ⟨hpw, hph⟩
      refine ⟨⟨i, bx.x, bx.y, bx.w, bx.h⟩, ?_, rfl⟩
      apply hperm.mem_iff.mpr
      have hm := collectPositionsFrom_mem_of boxes 0 i bx hget hpw hph
      simpa using hm
  · intro b hbmem
    obtain ⟨i2, bx2, hgl, hel, hx, hy, hw2, hh2, hpw, hph⟩ :=
      collectPositionsFrom_mem boxes 0 b (hperm.subset hbmem)
    refine ⟨bx2, ?_, hx, hy, hw2, hh2, hpw, hph⟩
    rw [hel]
    simpa using hgl
  · intro l hl hkdist
    have hpl0 : (sortButtons l).Perm l := List.perm_insertionSort _ l
    have hpl : (sortButtons l).Perm (collectPositions boxes) := hpl0.trans hl
    have hk1 : (sortButtons l).Pairwise fun a b => a.y ≠ b.y ∨ a.x ≠ b.x :=
      (List.Perm.pairwise_iff (fun hxy => hxy.imp Ne.symm Ne.symm) hpl).mpr
        hkdist
    exact sorted_unique (sortButtons l) (candidates boxes)
      (hpl.trans hperm.symm) (sortButtons_sorted l) (sortButtons_sorted _) hk1

/-- A concrete keypad layout: two valid buttons (at (y, x) keys (9, 5)
and (2, 4)), one hidden element (no box), one zero-width element. -/
def boxes3 : List (Option Box) :=
  [some ⟨5, 9, 2, 2⟩, none, some ⟨1, 3, 0, 2⟩, some ⟨4, 2, 3, 3⟩]

theorem candidates_spec_witness :
    (∃ b ∈ candidates boxes3, b = ⟨0, 5, 9, 2, 2⟩) ∧
      sortButtons [⟨3, 4, 2, 3, 3⟩, ⟨0, 5, 9, 2, 2⟩] = candidates boxes3 :=
  ⟨((candidates_spec boxes3).2.2.1 0 ⟨5, 9, 2, 2⟩ (by decide)).mpr
      (by decide),
   (candidates_spec boxes3).2.2.2.2 [⟨3, 4, 2, 3, 3⟩, ⟨0, 5, 9, 2, 2⟩]
     (by decide) (by decide)⟩

end Lotto
